import Mathlib

/-!
Verification of the cost-query reconciliation and caching layer of the
`llm-proxy-rs/cost` repository.

The embedding mirrors `src/server/src/service.rs` (`cached_query`,
`get_daily_cost`) and `src/ce/src/lib.rs` (`aggregate_by_key`,
`extract_blended_cost`).  Rust `f64` amounts are modelled as `ℚ` (every
amount appearing in the claims is exactly representable); Rust `&str`
comparison on ASCII strings is modelled by lexicographic order on the
strings' character lists (`String.data`), which by `String.lt_iff_toList_lt`
is exactly Lean's `String` order and, on ASCII, Rust's byte order.  The cache-store primitives
`db::get_cached_costs` / `db::upsert_cached_costs` are called by the source
but their definitions are not part of the provided sources, so they are
modelled from the spec (section 4.2) where a claim needs them.
-/

set_option maxHeartbeats 1000000

namespace Cost

/-- A cost record as in `common::CostRecord`: ISO-8601 date string, amount
(`f64` modelled as `ℚ`), currency code. -/
structure CostRecord where
  date : String
  amount : ℚ
  currency : String
deriving DecidableEq

/-- A calendar date `(year, month, day)`, standing for
`chrono::Utc::now().date_naive()` (the `today` of `cached_query`). -/
structure Date where
  year : Nat
  month : Nat
  day : Nat
deriving DecidableEq

/-- The ASCII digit character for `n` (`'0'` + n). -/
def digitChar (n : Nat) : Char := Char.ofNat (48 + n)

/-- Zero-padded fixed-width decimal digits of `n`, width `k`; models Rust
`format!("{:0k}", n)` for `n < 10^k`. -/
def padNat : Nat → Nat → List Char
  | 0, _ => []
  | k + 1, n => digitChar (n / 10 ^ k) :: padNat k (n % 10 ^ k)

/-- `"YYYY-MM-DD"` formatting: models chrono `%Y-%m-%d` and
`format!("{:04}-{:02}-01", ...)` in `cached_query`. -/
def isoDate (y m d : Nat) : String :=
  String.mk (padNat 4 y ++ '-' :: padNat 2 m ++ '-' :: padNat 2 d)

/-- The freshness cutoff of `cached_query` (service.rs:87-92): first day of
the current month for monthly queries, today's date otherwise. -/
def cutoffOf (queryType : String) (today : Date) : String :=
  if queryType = "monthly" then isoDate today.year today.month 1
  else isoDate today.year today.month today.day

/-- `cache_end` of `cached_query` (service.rs:93):
`if cutoff < end { cutoff } else { end }` (string comparison). -/
def cacheEnd (cutoffDate endDate : String) : String :=
  if cutoffDate.data < endDate.data then cutoffDate else endDate

/-- The finalized sub-range `[start, cache_end)` that `cached_query` derives,
present exactly when the branch `start < cache_end` (service.rs:98) is taken. -/
def finalizedRange (queryType : String) (today : Date) (start endDate : String) :
    Option (String × String) :=
  let ce := cacheEnd (cutoffOf queryType today) endDate
  if start.data < ce.data then some (start, ce) else none

/-- The live sub-range `[cache_end, end)` that the live branch of
`cached_query` fetches, present exactly when `cache_end < end`
(service.rs:121-122). -/
def liveRange (queryType : String) (today : Date) (_start endDate : String) :
    Option (String × String) :=
  let ce := cacheEnd (cutoffOf queryType today) endDate
  if ce.data < endDate.data then some (ce, endDate) else none

/-- Membership of a date string in an optional half-open range. -/
def inRange (p : Option (String × String)) (x : String) : Prop :=
  ∃ a b, p = some (a, b) ∧ a.data ≤ x.data ∧ x.data < b.data

/-- Observable outcome of one `cached_query` invocation: the returned
records, the cache read ranges issued, the billing-API call ranges issued,
and the records handed to the background upsert (if any). -/
structure QueryOutcome where
  results : List CostRecord
  cacheReads : List (String × String)
  apiCalls : List (String × String)
  upserted : Option (List CostRecord)
deriving DecidableEq

/-- Record of what the finalized branch of `cached_query`
(service.rs:98-118) does. -/
structure FinalizedStep where
  records : List CostRecord
  reads : List (String × String)
  calls : List (String × String)
  upserted : Option (List CostRecord)
deriving DecidableEq

/-- The finalized branch of `cached_query` (service.rs:98-118): read the
cache over `[start, cache_end)` (a read error degrades to the empty list,
`unwrap_or_default`); accept the cached records iff non-empty and the first
record's date is `<= start`; otherwise fetch `[start, cache_end)` from the
billing API and hand the fetched records to the background upsert. -/
def finalizedStep (queryType filterId start ce : String)
    (getCached : String → String → String → String → Except String (List CostRecord))
    (ceFn : String → String → List CostRecord) : FinalizedStep :=
  if start.data < ce.data then
    let cached : List CostRecord :=
      match getCached queryType filterId start ce with
      | Except.ok v => v
      | Except.error _ => []
    if cached ≠ [] ∧ (cached.headD ⟨"", 0, ""⟩).date.data ≤ start.data then
      ⟨cached, [(start, ce)], [], none⟩
    else ⟨ceFn start ce, [(start, ce)], [(start, ce)], some (ceFn start ce)⟩
  else ⟨[], [], [], none⟩

/-- The live branch's fetch result (service.rs:121-123). -/
def livePortion (ce endDate : String) (ceFn : String → String → List CostRecord) :
    List CostRecord :=
  if ce.data < endDate.data then ceFn ce endDate else []

/-- The billing-API call the live branch issues (service.rs:121-122). -/
def liveCallsOf (ce endDate : String) : List (String × String) :=
  if ce.data < endDate.data then [(ce, endDate)] else []

/-- `RealCostService::cached_query` (service.rs:73-127).  `getCached` stands
for `db::get_cached_costs` on `self.cache_pool`; `ceFn` is the injected
billing-API closure.  The outcome records results, cache reads, API calls
and the records passed to the spawned `db::upsert_cached_costs`. -/
def cachedQuery (queryType filterId start endDate : String) (today : Date)
    (getCached : String → String → String → String → Except String (List CostRecord))
    (ceFn : String → String → List CostRecord) : QueryOutcome :=
  let cutoff := cutoffOf queryType today
  let ce := cacheEnd cutoff endDate
  let fin := finalizedStep queryType filterId start ce getCached ceFn
  { results := fin.records ++ livePortion ce endDate ceFn
    cacheReads := fin.reads
    apiCalls := fin.calls ++ liveCallsOf ce endDate
    upserted := fin.upserted }

/-- The error-swallowing wrapper that `get_daily_cost` (service.rs:132-144)
puts around the CE API: `unwrap_or_else(|e| { log; Vec::new() })`. -/
def ceWrap (api : String → String → Except String (List CostRecord)) :
    String → String → List CostRecord :=
  fun s e =>
    match api s e with
    | Except.ok v => v
    | Except.error _ => []

/-- `RealCostService::get_daily_cost` (service.rs:132-144): `cached_query`
with query type `"daily"`, empty filter, and the error-swallowing CE
wrapper. -/
def getDailyCost (start endDate : String) (today : Date)
    (getCached : String → String → String → String → Except String (List CostRecord))
    (api : String → String → Except String (List CostRecord)) : QueryOutcome :=
  cachedQuery "daily" "" start endDate today getCached (ceWrap api)

/-- `aws_sdk_costexplorer::types::MetricValue`: optional amount string and
optional unit string. -/
structure MetricValue where
  amount : Option String
  unit : Option String
deriving DecidableEq

/-- Lookup in the metrics map (`HashMap::get`). -/
def lookupMetric : List (String × MetricValue) → String → Option MetricValue
  | [], _ => none
  | (k, v) :: rest, key => if k = key then some v else lookupMetric rest key

/-- `extract_blended_cost` (ce/src/lib.rs:281-292), parameterized by the
`str::parse::<f64>` function (`parseAmount s = none` models a parse error):
`metrics.and_then(get "BlendedCost").map(|mv| (mv.amount().unwrap_or("0")
.parse().unwrap_or(0.0), mv.unit().unwrap_or("USD"))).unwrap_or((0.0, "USD"))`. -/
def extractBlendedCost (parseAmount : String → Option ℚ)
    (metrics : Option (List (String × MetricValue))) : ℚ × String :=
  match metrics.bind (fun m => lookupMetric m "BlendedCost") with
  | some mv =>
    let a : ℚ :=
      match parseAmount (mv.amount.getD "0") with
      | some q => q
      | none => 0
    (a, mv.unit.getD "USD")
  | none => (0, "USD")

/-- One `HashMap::entry(key).or_insert((0.0, currency)); entry.0 += amount`
step of `aggregate_by_key` (ce/src/lib.rs:306-310), on an
insertion-ordered association list refining the `HashMap`. -/
def addItem {T : Type} (keyFn : T → String) (amountOf : T → ℚ) (currencyOf : T → String)
    (m : List (String × ℚ × String)) (item : T) : List (String × ℚ × String) :=
  let k := keyFn item
  if m.any (fun p => p.1 = k) then
    m.map (fun p => if p.1 = k then (p.1, p.2.1 + amountOf item, p.2.2) else p)
  else
    m ++ [(k, amountOf item, currencyOf item)]

/-- `aggregate_by_key` (ce/src/lib.rs:300-317): fold all items into the map,
then sort descending by total amount
(`sort_by(|a, b| b.1.partial_cmp(&a.1)...)`).  The `HashMap`'s random
iteration order is refined to insertion order; the claims constrain tie
order in no way, so every property proved here holds of the Rust code for
any iteration order. -/
def aggregateByKey {T : Type} (items : List T) (keyFn : T → String)
    (amountOf : T → ℚ) (currencyOf : T → String) : List (String × ℚ × String) :=
  List.insertionSort (fun a b => b.2.1 ≤ a.2.1)
    (items.foldl (addItem keyFn amountOf currencyOf) [])

/-- Modelled from the spec: `db::get_cached_costs` is called by
`cached_query` (service.rs:100) but is not among the provided sources.
Spec 4.2: `get(query_kind, filter_id, start, end)` returns the cached
records with date in the requested range, ordered ascending by date, empty
if nothing cached. -/
def getCachedCosts (cache : List CostRecord) (start endDate : String) :
    List CostRecord :=
  List.insertionSort (fun a b => a.date.data ≤ b.date.data)
    (cache.filter (fun r => decide (start.data ≤ r.date.data ∧ r.date.data < endDate.data)))

/-- Modelled from the spec: one row of `db::upsert_cached_costs`
(service.rs:114; not among the provided sources).  Spec 4.2: idempotent
upsert keyed by date, last write wins on amount/currency. -/
def upsertOne (cache : List CostRecord) (r : CostRecord) : List CostRecord :=
  if cache.any (fun cr => cr.date = r.date) then
    cache.map (fun cr =>
      if cr.date = r.date then { cr with amount := r.amount, currency := r.currency }
      else cr)
  else cache ++ [r]

/-- Modelled from the spec: `db::upsert_cached_costs` (service.rs:114; not
among the provided sources): upsert every fetched record, keyed by date. -/
def upsertCachedCosts (cache : List CostRecord) (records : List CostRecord) :
    List CostRecord :=
  records.foldl upsertOne cache

/-- `cached_query` against an explicit cache state (for one
`(query_kind, filter_id)` key), returning the outcome and the cache state
after the background upsert has completed. -/
def queryWithCache (queryType filterId start endDate : String) (today : Date)
    (cache : List CostRecord) (ceFn : String → String → List CostRecord) :
    QueryOutcome × List CostRecord :=
  let out := cachedQuery queryType filterId start endDate today
    (fun _ _ a b => Except.ok (getCachedCosts cache a b)) ceFn
  (out,
    match out.upserted with
    | some r => upsertCachedCosts cache r
    | none => cache)

/-- Gregorian leap year. -/
def isLeapYear (y : Nat) : Bool := (y % 4 == 0 && y % 100 != 0) || y % 400 == 0

/-- Days in a Gregorian month. -/
def daysInMonth (y m : Nat) : Nat :=
  if m = 2 then (if isLeapYear y then 29 else 28)
  else if m = 4 ∨ m = 6 ∨ m = 9 ∨ m = 11 then 30 else 31

/-- Calendar successor of a date. -/
def nextDay (d : Date) : Date :=
  if d.day < daysInMonth d.year d.month then ⟨d.year, d.month, d.day + 1⟩
  else if d.month < 12 then ⟨d.year, d.month + 1, 1⟩
  else ⟨d.year + 1, 1, 1⟩

/-- ISO string of a `Date`. -/
def isoOfDate (d : Date) : String := isoDate d.year d.month d.day

/-- Numeric value of a list of decimal digit characters. -/
def digitsToNat (cs : List Char) : Nat :=
  cs.foldl (fun n c => n * 10 + (c.toNat - 48)) 0

/-- Parse `"YYYY-MM-DD"` into a `Date` (fixed-width fields). -/
def parseIso (s : String) : Date :=
  let cs := s.data
  ⟨digitsToNat (cs.take 4), digitsToNat ((cs.drop 5).take 2),
    digitsToNat ((cs.drop 8).take 2)⟩

/-- The consecutive dates from `d` (inclusive) up to `endDate` (exclusive),
fuel-bounded. -/
def datesFromAux : Nat → Date → String → List String
  | 0, _, _ => []
  | fuel + 1, d, endDate =>
    if (isoOfDate d).data < endDate.data then isoOfDate d :: datesFromAux fuel (nextDay d) endDate
    else []

/-- Billing-API test double of claim C3: one record of amount 1.0 per day of
any requested range. -/
def unitApi (start endDate : String) : List CostRecord :=
  (datesFromAux 1000 (parseIso start) endDate).map (fun d => ⟨d, 1, "USD"⟩)

/-- Boolean check that the dates of a record list are strictly ascending. -/
def datesStrictlyAscending : List CostRecord → Bool
  | [] => true
  | [_] => true
  | a :: b :: rest =>
    decide (a.date.data < b.date.data) && datesStrictlyAscending (b :: rest)

end Cost

namespace Cost

/-! ### Helper lemmas -/

theorem inRange_some {a b x : String} :
    inRange (some (a, b)) x ↔ a.data ≤ x.data ∧ x.data < b.data := by
  constructor
  · rintro ⟨a', b', heq, h1, h2⟩
    obtain ⟨rfl, rfl⟩ : a = a' ∧ b = b' := by
      have := Option.some.inj heq
      exact ⟨congrArg Prod.fst this, congrArg Prod.snd this⟩
    exact ⟨h1, h2⟩
  · intro h
    exact ⟨a, b, rfl, h.1, h.2⟩

theorem inRange_none {x : String} : ¬ inRange none x := by
  rintro ⟨a, b, h, -⟩
  cases h

theorem apiCalls_error_cache (queryType filterId start endDate : String) (today : Date)
    (ceFn : String → String → List CostRecord) (msg : String) :
    (cachedQuery queryType filterId start endDate today
        (fun _ _ _ _ => Except.error msg) ceFn).apiCalls
      = (finalizedRange queryType today start endDate).toList
          ++ (liveRange queryType today start endDate).toList := by
  simp only [cachedQuery, finalizedStep, finalizedRange, liveRange, liveCallsOf]
  split
  · show (start, _) :: _ = _
    split <;> rfl
  · show List.nil ++ _ = _
    split <;> rfl

end Cost

namespace Cost

/-! ### Claim C1 -/

/-- C1 (amended): for `start < end` and a fixed `now`, **provided the
requested start is not after the freshness cutoff**
(`start ≤ cutoff`), the finalized and live sub-ranges that `cached_query`
derives partition `[start, end)` exactly — their union is `[start, end)`
with no overlap — for both daily and monthly granularity, and the live
range starts at `cache_end = max(cache_end, start)`; moreover the API calls
issued on a cache miss are exactly these two ranges. -/
theorem c1_partition_amended (queryType filterId start endDate : String) (today : Date)
    (h1 : start.data < endDate.data)
    (h2 : start.data ≤ (cutoffOf queryType today).data) :
    (∀ x : String,
      (inRange (finalizedRange queryType today start endDate) x ∨
       inRange (liveRange queryType today start endDate) x)
        ↔ (start.data ≤ x.data ∧ x.data < endDate.data)) ∧
    (∀ x : String,
      ¬ (inRange (finalizedRange queryType today start endDate) x ∧
         inRange (liveRange queryType today start endDate) x)) ∧
    (start.data ≤ (cacheEnd (cutoffOf queryType today) endDate).data) ∧
    (∀ ceFn msg, (cachedQuery queryType filterId start endDate today
        (fun _ _ _ _ => Except.error msg) ceFn).apiCalls
      = (finalizedRange queryType today start endDate).toList
          ++ (liveRange queryType today start endDate).toList) := by
  by_cases hc : (cutoffOf queryType today).data < endDate.data
  · have hce : cacheEnd (cutoffOf queryType today) endDate = cutoffOf queryType today := by
      simp [cacheEnd, hc]
    refine ⟨?_, ?_, ?_, ?_⟩
    · intro x
      simp only [finalizedRange, liveRange, hce]
      rw [if_pos hc]
      by_cases hs : start.data < (cutoffOf queryType today).data
      · rw [if_pos hs]
        simp only [inRange_some]
        constructor
        · rintro (⟨hx1, hx2⟩ | ⟨hx1, hx2⟩)
          · exact ⟨hx1, lt_trans hx2 hc⟩
          · exact ⟨le_trans h2 hx1, hx2⟩
        · rintro ⟨hx1, hx2⟩
          by_cases hxc : x.data < (cutoffOf queryType today).data
          · exact Or.inl ⟨hx1, hxc⟩
          · exact Or.inr ⟨le_of_not_lt hxc, hx2⟩
      · rw [if_neg hs]
        have hse : start.data = (cutoffOf queryType today).data :=
          le_antisymm h2 (le_of_not_lt hs)
        simp only [inRange_some, (inRange_none (x := x))]
        constructor
        · rintro (h | ⟨hx1, hx2⟩)
          · exact h.elim
          · exact ⟨hse ▸ hx1, hx2⟩
        · rintro ⟨hx1, hx2⟩
          exact Or.inr ⟨hse ▸ hx1, hx2⟩
    · intro x
      simp only [finalizedRange, liveRange, hce]
      rw [if_pos hc]
      split
      · rintro ⟨h3, h4⟩
        rw [inRange_some] at h3 h4
        exact absurd (lt_of_lt_of_le h3.2 h4.1) (lt_irrefl _)
      · rintro ⟨h3, -⟩
        exact inRange_none h3
    · rw [hce]; exact h2
    · intro ceFn msg; exact apiCalls_error_cache ..
  · have hce : cacheEnd (cutoffOf queryType today) endDate = endDate := by
      simp [cacheEnd, hc]
    refine ⟨?_, ?_, ?_, ?_⟩
    · intro x
      simp only [finalizedRange, liveRange, hce]
      rw [if_pos h1, if_neg (lt_irrefl _)]
      simp only [inRange_some, (inRange_none (x := x)), or_false]
    · intro x
      simp only [finalizedRange, liveRange, hce]
      rw [if_neg (lt_irrefl _)]
      rintro ⟨-, h4⟩
      exact inRange_none h4
    · rw [hce]; exact le_of_lt h1
    · intro ceFn msg; exact apiCalls_error_cache ..

/-- C1 counterexample: with `now = 2024-01-08` (daily, so `cutoff =
"2024-01-08"`), `start = "2024-01-09"`, `end = "2024-01-10"`, the live
branch fetches `["2024-01-08", "2024-01-10")` — not
`[max(cache_end, start), end) = ["2024-01-09", "2024-01-10")` — and the
date `"2024-01-08"` lies in that derived live range but outside the
requested `[start, end)`, so the derived sub-ranges do not partition the
requested range. -/
theorem c1_live_overshoot_cex :
    liveRange "daily" ⟨2024, 1, 8⟩ "2024-01-09" "2024-01-10"
        = some ("2024-01-08", "2024-01-10") ∧
    inRange (liveRange "daily" ⟨2024, 1, 8⟩ "2024-01-09" "2024-01-10") "2024-01-08" ∧
    ¬ (("2024-01-09" : String).data ≤ ("2024-01-08" : String).data ∧
       ("2024-01-08" : String).data < ("2024-01-10" : String).data) ∧
    finalizedRange "daily" ⟨2024, 1, 8⟩ "2024-01-09" "2024-01-10" = none := by
  have h : liveRange "daily" ⟨2024, 1, 8⟩ "2024-01-09" "2024-01-10"
      = some ("2024-01-08", "2024-01-10") := by decide
  refine ⟨h, ?_, by decide, by decide⟩
  rw [h]
  exact inRange_some.mpr (by decide)

/-- C1 witness: the amended theorem applied at `queryType = "daily"`,
`start = "2024-01-01"`, `end = "2024-01-10"`, `now = 2024-01-08`. -/
theorem c1_partition_amended_witness :
    (("2024-01-01" : String).data < ("2024-01-10" : String).data) ∧
    (("2024-01-01" : String).data ≤ (cutoffOf "daily" ⟨2024, 1, 8⟩).data) ∧
    ((∀ x : String,
      (inRange (finalizedRange "daily" ⟨2024, 1, 8⟩ "2024-01-01" "2024-01-10") x ∨
       inRange (liveRange "daily" ⟨2024, 1, 8⟩ "2024-01-01" "2024-01-10") x)
        ↔ (("2024-01-01" : String).data ≤ x.data ∧
            x.data < ("2024-01-10" : String).data)) ∧
    (∀ x : String,
      ¬ (inRange (finalizedRange "daily" ⟨2024, 1, 8⟩ "2024-01-01" "2024-01-10") x ∧
         inRange (liveRange "daily" ⟨2024, 1, 8⟩ "2024-01-01" "2024-01-10") x)) ∧
    (("2024-01-01" : String).data
        ≤ (cacheEnd (cutoffOf "daily" ⟨2024, 1, 8⟩) "2024-01-10").data) ∧
    (∀ ceFn msg, (cachedQuery "daily" "" "2024-01-01" "2024-01-10" ⟨2024, 1, 8⟩
        (fun _ _ _ _ => Except.error msg) ceFn).apiCalls
      = (finalizedRange "daily" ⟨2024, 1, 8⟩ "2024-01-01" "2024-01-10").toList
          ++ (liveRange "daily" ⟨2024, 1, 8⟩ "2024-01-01" "2024-01-10").toList)) :=
  ⟨by decide, by decide,
    c1_partition_amended "daily" "" "2024-01-01" "2024-01-10" ⟨2024, 1, 8⟩
      (by decide) (by decide)⟩

end Cost

namespace Cost

/-! ### Claim C2 -/

/-- C2: over a non-empty finalized range, `cached_query` accepts the cached
sequence as the answer iff it is non-empty and its first record's date is
`<= start`; on a miss it fetches the entire finalized range
`[start, cache_end)` from the billing API (one call on exactly that range)
and hands the full fetched range to the cache upsert. -/
theorem c2_coverage_check (queryType filterId start endDate : String) (today : Date)
    (getCached : String → String → String → String → Except String (List CostRecord))
    (ceFn : String → String → List CostRecord) (cached : List CostRecord)
    (hce : start.data < (cacheEnd (cutoffOf queryType today) endDate).data)
    (hg : getCached queryType filterId start (cacheEnd (cutoffOf queryType today) endDate)
          = Except.ok cached) :
    ((cached ≠ [] ∧ (cached.headD ⟨"", 0, ""⟩).date.data ≤ start.data) →
      (cachedQuery queryType filterId start endDate today getCached ceFn).results
          = cached ++ livePortion (cacheEnd (cutoffOf queryType today) endDate) endDate ceFn ∧
      (cachedQuery queryType filterId start endDate today getCached ceFn).upserted = none ∧
      (cachedQuery queryType filterId start endDate today getCached ceFn).apiCalls
          = liveCallsOf (cacheEnd (cutoffOf queryType today) endDate) endDate) ∧
    (¬ (cached ≠ [] ∧ (cached.headD ⟨"", 0, ""⟩).date.data ≤ start.data) →
      (cachedQuery queryType filterId start endDate today getCached ceFn).results
          = ceFn start (cacheEnd (cutoffOf queryType today) endDate)
              ++ livePortion (cacheEnd (cutoffOf queryType today) endDate) endDate ceFn ∧
      (cachedQuery queryType filterId start endDate today getCached ceFn).upserted
          = some (ceFn start (cacheEnd (cutoffOf queryType today) endDate)) ∧
      (cachedQuery queryType filterId start endDate today getCached ceFn).apiCalls
          = (start, cacheEnd (cutoffOf queryType today) endDate)
              :: liveCallsOf (cacheEnd (cutoffOf queryType today) endDate) endDate) := by
  constructor
  · intro hacc
    simp only [cachedQuery, finalizedStep, hg, if_pos hce, if_pos hacc]
    refine ⟨?_, ?_, ?_⟩ <;> trivial
  · intro hmiss
    simp only [cachedQuery, finalizedStep, hg, if_pos hce, if_neg hmiss]
    refine ⟨?_, ?_, ?_⟩ <;> trivial

/-- C2 witness: with `now = 2024-01-08` and requested start `d =
"2024-01-01"`, a cache holding only dates from `d+1 = "2024-01-02"` on is a
miss: the whole finalized range `["2024-01-01", "2024-01-08")` is refetched
from the billing API and the full fetched range is upserted. -/
theorem c2_coverage_check_witness :
    (("2024-01-01" : String).data
        < (cacheEnd (cutoffOf "daily" ⟨2024, 1, 8⟩) "2024-01-10").data) ∧
    (¬ (([⟨"2024-01-02", 1, "USD"⟩] : List CostRecord) ≠ [] ∧
        (([⟨"2024-01-02", 1, "USD"⟩] : List CostRecord).headD
          ⟨"", 0, ""⟩).date.data ≤ ("2024-01-01" : String).data) →
      (cachedQuery "daily" "" "2024-01-01" "2024-01-10" ⟨2024, 1, 8⟩
        (fun _ _ _ _ => Except.ok [⟨"2024-01-02", 1, "USD"⟩]) unitApi).results
          = unitApi "2024-01-01" (cacheEnd (cutoffOf "daily" ⟨2024, 1, 8⟩) "2024-01-10")
              ++ livePortion (cacheEnd (cutoffOf "daily" ⟨2024, 1, 8⟩) "2024-01-10")
                  "2024-01-10" unitApi ∧
      (cachedQuery "daily" "" "2024-01-01" "2024-01-10" ⟨2024, 1, 8⟩
        (fun _ _ _ _ => Except.ok [⟨"2024-01-02", 1, "USD"⟩]) unitApi).upserted
          = some (unitApi "2024-01-01"
              (cacheEnd (cutoffOf "daily" ⟨2024, 1, 8⟩) "2024-01-10")) ∧
      (cachedQuery "daily" "" "2024-01-01" "2024-01-10" ⟨2024, 1, 8⟩
        (fun _ _ _ _ => Except.ok [⟨"2024-01-02", 1, "USD"⟩]) unitApi).apiCalls
          = ("2024-01-01", cacheEnd (cutoffOf "daily" ⟨2024, 1, 8⟩) "2024-01-10")
              :: liveCallsOf (cacheEnd (cutoffOf "daily" ⟨2024, 1, 8⟩) "2024-01-10")
                  "2024-01-10") :=
  ⟨by decide,
    (c2_coverage_check "daily" "" "2024-01-01" "2024-01-10" ⟨2024, 1, 8⟩
      (fun _ _ _ _ => Except.ok [⟨"2024-01-02", 1, "USD"⟩]) unitApi
      [⟨"2024-01-02", 1, "USD"⟩] (by decide) rfl).2⟩

end Cost

namespace Cost

/-! ### Claim C3 -/

/-- C3: with `now = 2024-01-08`, an empty cache, and a billing API returning
one record of amount 1.0 per day of any requested range,
`query(daily, "", 2024-01-01, 2024-01-10)` returns exactly 9 records with
strictly ascending dates, each of amount 1.0, and after the background
write completes the cache holds exactly the 7 finalized-range entries
2024-01-01 .. 2024-01-07 — none at or after 2024-01-08. -/
theorem c3_concrete_scenario :
    (queryWithCache "daily" "" "2024-01-01" "2024-01-10" ⟨2024, 1, 8⟩ [] unitApi).1.results
        = (["2024-01-01", "2024-01-02", "2024-01-03", "2024-01-04", "2024-01-05",
            "2024-01-06", "2024-01-07", "2024-01-08", "2024-01-09"].map
            (fun d => ({ date := d, amount := 1, currency := "USD" } : CostRecord))) ∧
    datesStrictlyAscending
        (queryWithCache "daily" "" "2024-01-01" "2024-01-10" ⟨2024, 1, 8⟩ []
          unitApi).1.results = true ∧
    (∀ r ∈ (queryWithCache "daily" "" "2024-01-01" "2024-01-10" ⟨2024, 1, 8⟩ []
        unitApi).1.results, r.amount = 1) ∧
    (queryWithCache "daily" "" "2024-01-01" "2024-01-10" ⟨2024, 1, 8⟩ [] unitApi).2
        = (["2024-01-01", "2024-01-02", "2024-01-03", "2024-01-04", "2024-01-05",
            "2024-01-06", "2024-01-07"].map
            (fun d => ({ date := d, amount := 1, currency := "USD" } : CostRecord))) ∧
    (∀ r ∈ (queryWithCache "daily" "" "2024-01-01" "2024-01-10" ⟨2024, 1, 8⟩ []
        unitApi).2, r.date.data < ("2024-01-08" : String).data) :=
  ⟨by decide, by decide, by decide, by decide, by decide⟩

/-! ### Claim C4 -/

/-- C4: no billing-API failure propagates out of `get_daily_cost`: a failure
on the live sub-range resolves that sub-range to the empty sequence, so the
result is exactly the finalized sub-range's data followed by nothing; a
failure on the finalized sub-range fetch (here, under an empty cache)
resolves it to the empty sequence, so the result is just the live portion.
No error value appears in any outcome — the function is total. -/
theorem c4_api_failure_degrades (start endDate : String) (today : Date)
    (getCached : String → String → String → String → Except String (List CostRecord))
    (api : String → String → Except String (List CostRecord)) :
    (∀ msg, api (cacheEnd (cutoffOf "daily" today) endDate) endDate = Except.error msg →
      (getDailyCost start endDate today getCached api).results =
        (finalizedStep "daily" "" start (cacheEnd (cutoffOf "daily" today) endDate)
          getCached (ceWrap api)).records) ∧
    (∀ msg, api start (cacheEnd (cutoffOf "daily" today) endDate) = Except.error msg →
      getCached "daily" "" start (cacheEnd (cutoffOf "daily" today) endDate)
          = Except.ok [] →
      (getDailyCost start endDate today getCached api).results =
        livePortion (cacheEnd (cutoffOf "daily" today) endDate) endDate (ceWrap api)) := by
  constructor
  · intro msg h
    simp only [getDailyCost, cachedQuery, livePortion, ceWrap, h]
    split
    · simp
    · simp
  · intro msg h hg
    simp only [getDailyCost, cachedQuery, finalizedStep, ceWrap, hg, h]
    split
    · simp [livePortion]
    · simp [livePortion]

/-- C4 witness: a billing API that fails exactly on the live sub-range
`["2024-01-08", "2024-01-10")`; the result is the finalized branch's
records followed by nothing. -/
theorem c4_api_failure_degrades_witness :
    ((fun a _ => if a = "2024-01-08" then Except.error "boom"
        else Except.ok [({ date := a, amount := 1, currency := "USD" } : CostRecord)])
      (cacheEnd (cutoffOf "daily" ⟨2024, 1, 8⟩) "2024-01-10") "2024-01-10"
        = (Except.error "boom" : Except String (List CostRecord))) ∧
    (getDailyCost "2024-01-01" "2024-01-10" ⟨2024, 1, 8⟩
        (fun _ _ _ _ => Except.ok [])
        (fun a _ => if a = "2024-01-08" then Except.error "boom"
          else Except.ok [⟨a, 1, "USD"⟩])).results =
      (finalizedStep "daily" "" "2024-01-01"
        (cacheEnd (cutoffOf "daily" ⟨2024, 1, 8⟩) "2024-01-10")
        (fun _ _ _ _ => Except.ok [])
        (ceWrap (fun a _ => if a = "2024-01-08" then Except.error "boom"
          else Except.ok [⟨a, 1, "USD"⟩]))).records :=
  ⟨rfl,
    (c4_api_failure_degrades "2024-01-01" "2024-01-10" ⟨2024, 1, 8⟩
      (fun _ _ _ _ => Except.ok [])
      (fun a _ => if a = "2024-01-08" then Except.error "boom"
        else Except.ok [⟨a, 1, "USD"⟩])).1 "boom" rfl⟩

/-! ### Claim C5 -/

/-- C5: the only records ever handed to the cache upsert are exactly the
billing-API result for the finalized sub-range `[start, cache_end)`; the
only cache read is over that same finalized sub-range (so live dates are
never read from cache); and, for any two cache behaviours, the returned
sequence always ends with the same live-branch fetch result, appended
without any cache interaction. -/
theorem c5_live_frame (queryType filterId start endDate : String) (today : Date)
    (g1 g2 : String → String → String → String → Except String (List CostRecord))
    (ceFn : String → String → List CostRecord) :
    ((cachedQuery queryType filterId start endDate today g1 ceFn).upserted = none ∨
     (cachedQuery queryType filterId start endDate today g1 ceFn).upserted
        = some (ceFn start (cacheEnd (cutoffOf queryType today) endDate))) ∧
    ((cachedQuery queryType filterId start endDate today g1 ceFn).cacheReads
        = if start.data < (cacheEnd (cutoffOf queryType today) endDate).data
          then [(start, cacheEnd (cutoffOf queryType today) endDate)] else []) ∧
    (∃ fin1 fin2,
      (cachedQuery queryType filterId start endDate today g1 ceFn).results
          = fin1 ++ livePortion (cacheEnd (cutoffOf queryType today) endDate) endDate ceFn ∧
      (cachedQuery queryType filterId start endDate today g2 ceFn).results
          = fin2 ++ livePortion (cacheEnd (cutoffOf queryType today) endDate) endDate
              ceFn) := by
  refine ⟨?_, ?_, ?_⟩
  · simp only [cachedQuery, finalizedStep]
    split
    · split
      · exact Or.inl rfl
      · exact Or.inr rfl
    · exact Or.inl rfl
  · simp only [cachedQuery, finalizedStep]
    split
    · split
      · rfl
      · rfl
    · rfl
  · exact ⟨_, _, rfl, rfl⟩

/-! ### Claim C8 -/

/-- C8: a failed cache read is treated exactly like an empty cache: the
whole observable outcome of `cached_query` (results, reads, API calls,
upsert) with a cache read that errors equals the outcome with a cache that
returns the empty list, so no cache-read error ever surfaces. -/
theorem c8_cache_error_is_miss (queryType filterId start endDate : String) (today : Date)
    (getCached : String → String → String → String → Except String (List CostRecord))
    (ceFn : String → String → List CostRecord) (msg : String)
    (h : getCached queryType filterId start (cacheEnd (cutoffOf queryType today) endDate)
          = Except.error msg) :
    cachedQuery queryType filterId start endDate today getCached ceFn =
      cachedQuery queryType filterId start endDate today
        (fun _ _ _ _ => Except.ok []) ceFn := by
  simp only [cachedQuery, finalizedStep, h]

/-- C8 witness: a cache read that always fails with `"connection refused"`
gives exactly the outcome of an empty cache on the C3 scenario. -/
theorem c8_cache_error_is_miss_witness :
    ((fun _ _ _ _ => (Except.error "connection refused" : Except String (List CostRecord)))
      "daily" "" "2024-01-01" (cacheEnd (cutoffOf "daily" ⟨2024, 1, 8⟩) "2024-01-10")
        = Except.error "connection refused") ∧
    cachedQuery "daily" "" "2024-01-01" "2024-01-10" ⟨2024, 1, 8⟩
        (fun _ _ _ _ => Except.error "connection refused") unitApi =
      cachedQuery "daily" "" "2024-01-01" "2024-01-10" ⟨2024, 1, 8⟩
        (fun _ _ _ _ => Except.ok []) unitApi :=
  ⟨rfl, c8_cache_error_is_miss "daily" "" "2024-01-01" "2024-01-10" ⟨2024, 1, 8⟩
    (fun _ _ _ _ => Except.error "connection refused") unitApi "connection refused" rfl⟩

end Cost

namespace Cost

/-! ### Claim C9 -/

/-- C9 counterexample: a bucket whose `BlendedCost` metric has no amount but
carries unit `"EUR"`: `extract_blended_cost` returns `(0.0, "EUR")`, not
`(0.0, "USD")` as the claim states (the parse function here parses `"0"` to
`0`, as Rust `str::parse::<f64>` does). -/
theorem c9_currency_cex :
    extractBlendedCost (fun s => if s = "0" then some 0 else none)
        (some [("BlendedCost", ⟨none, some "EUR"⟩)]) = (0, "EUR") ∧
    ((0 : ℚ), ("EUR" : String)) ≠ ((0 : ℚ), ("USD" : String)) :=
  ⟨rfl, by decide⟩

/-- C9 (amended): for every bucket whose metrics map is absent, lacks the
`"BlendedCost"` key, whose amount field is absent, or whose amount string
fails to parse, `extract_blended_cost` returns amount 0.0 — so such buckets
appear as zero-cost records rather than being dropped or failing; the
currency is `"USD"` when the metrics map or the `BlendedCost` key is
absent, and otherwise the bucket's unit field (defaulting to `"USD"` only
when the unit is itself absent). -/
theorem c9_zero_cost_defaults (parseAmount : String → Option ℚ)
    (h0 : parseAmount "0" = some 0)
    (m : List (String × MetricValue)) (u : Option String) (s : String) :
    (extractBlendedCost parseAmount none = (0, "USD")) ∧
    (lookupMetric m "BlendedCost" = none →
      extractBlendedCost parseAmount (some m) = (0, "USD")) ∧
    (lookupMetric m "BlendedCost" = some ⟨none, u⟩ →
      extractBlendedCost parseAmount (some m) = (0, u.getD "USD")) ∧
    (lookupMetric m "BlendedCost" = some ⟨some s, u⟩ → parseAmount s = none →
      extractBlendedCost parseAmount (some m) = (0, u.getD "USD")) := by
  refine ⟨rfl, ?_, ?_, ?_⟩
  · intro h
    simp only [extractBlendedCost, Option.some_bind, h]
  · intro h
    simp only [extractBlendedCost, Option.some_bind, h, Option.getD_none, h0]
  · intro h hs
    simp only [extractBlendedCost, Option.some_bind, h, Option.getD_some, hs]

/-- C9 witness: the amended theorem applied with a concrete parse function
(failing on `"garbage"`), a map whose `BlendedCost` has an unparsable
amount and no unit. -/
theorem c9_zero_cost_defaults_witness :
    ((fun s => if s = "0" then some (0 : ℚ) else none) "0" = some 0) ∧
    ((extractBlendedCost (fun s => if s = "0" then some (0 : ℚ) else none) none
        = (0, "USD")) ∧
    (lookupMetric [("BlendedCost", ⟨some "garbage", none⟩)] "BlendedCost" = none →
      extractBlendedCost (fun s => if s = "0" then some (0 : ℚ) else none)
        (some [("BlendedCost", ⟨some "garbage", none⟩)]) = (0, "USD")) ∧
    (lookupMetric [("BlendedCost", ⟨some "garbage", none⟩)] "BlendedCost"
        = some ⟨none, none⟩ →
      extractBlendedCost (fun s => if s = "0" then some (0 : ℚ) else none)
        (some [("BlendedCost", ⟨some "garbage", none⟩)])
          = (0, Option.getD none "USD")) ∧
    (lookupMetric [("BlendedCost", ⟨some "garbage", none⟩)] "BlendedCost"
        = some ⟨some "garbage", none⟩ →
      (fun s => if s = "0" then some (0 : ℚ) else none) "garbage" = none →
      extractBlendedCost (fun s => if s = "0" then some (0 : ℚ) else none)
        (some [("BlendedCost", ⟨some "garbage", none⟩)])
          = (0, Option.getD none "USD"))) :=
  ⟨rfl, c9_zero_cost_defaults (fun s => if s = "0" then some (0 : ℚ) else none) rfl
    [("BlendedCost", ⟨some "garbage", none⟩)] none "garbage"⟩

end Cost

namespace Cost

/-! ### Claim C7 -/

/-- Total of the amounts of the items carrying key `k` (spec 4.4: group by key, sum amount). -/
def keyTotal {T : Type} (keyFn : T → String) (amountOf : T → ℚ) (items : List T) (k : String) : ℚ :=
  ((items.filter (fun i => keyFn i == k)).map amountOf).sum

/-- Currency of the first item observed for key `k` (spec 4.4). -/
def firstCurrency {T : Type} (keyFn : T → String) (currencyOf : T → String)
    (items : List T) (k : String) : Option String :=
  (items.find? (fun i => keyFn i == k)).map currencyOf

section AggregateLemmas

variable {T : Type} (keyFn : T → String) (amountOf : T → ℚ) (currencyOf : T → String)

theorem keyTotal_nil (k : String) : keyTotal keyFn amountOf [] k = 0 := rfl

theorem keyTotal_cons (i : T) (rest : List T) (k : String) :
    keyTotal keyFn amountOf (i :: rest) k
      = if keyFn i = k then amountOf i + keyTotal keyFn amountOf rest k
        else keyTotal keyFn amountOf rest k := by
  by_cases h : keyFn i = k <;> simp [keyTotal, h]

theorem firstCurrency_cons (i : T) (rest : List T) (k : String) :
    firstCurrency keyFn currencyOf (i :: rest) k
      = if keyFn i = k then some (currencyOf i)
        else firstCurrency keyFn currencyOf rest k := by
  by_cases h : keyFn i = k <;> simp [firstCurrency, List.find?_cons, h]

theorem addItem_any_iff (m : List (String × ℚ × String)) (k : String) :
    (m.any fun p => p.1 = k) = true ↔ k ∈ m.map (fun p => p.1) := by
  rw [List.any_eq_true]
  simp only [List.mem_map, decide_eq_true_eq]

theorem addItem_keys (m : List (String × ℚ × String)) (item : T) :
    (addItem keyFn amountOf currencyOf m item).map (fun p => p.1)
      = if keyFn item ∈ m.map (fun p => p.1) then m.map (fun p => p.1)
        else m.map (fun p => p.1) ++ [keyFn item] := by
  by_cases h : keyFn item ∈ m.map (fun p => p.1)
  · rw [if_pos h]
    simp only [addItem, if_pos ((addItem_any_iff m (keyFn item)).mpr h)]
    rw [List.map_map]
    apply List.map_congr_left
    intro p _
    by_cases hp : p.1 = keyFn item <;> simp [hp]
  · rw [if_neg h]
    simp only [addItem, if_neg (fun hc => h ((addItem_any_iff m (keyFn item)).mp hc))]
    simp

end AggregateLemmas



section AggregateLemmas2

variable {T : Type} (keyFn : T → String) (amountOf : T → ℚ) (currencyOf : T → String)

theorem addItem_nodup (m : List (String × ℚ × String)) (item : T)
    (h : (m.map (fun p => p.1)).Nodup) :
    ((addItem keyFn amountOf currencyOf m item).map (fun p => p.1)).Nodup := by
  rw [addItem_keys]
  split
  · exact h
  · rename_i hk
    simp [List.nodup_append, h, hk]

theorem addItem_mem_update (m : List (String × ℚ × String)) (item : T)
    (p : String × ℚ × String) (hk : keyFn item ∈ m.map (fun p => p.1)) :
    p ∈ addItem keyFn amountOf currencyOf m item ↔
      ∃ q ∈ m, p = (if q.1 = keyFn item then (q.1, q.2.1 + amountOf item, q.2.2) else q) := by
  simp only [addItem, if_pos ((addItem_any_iff m (keyFn item)).mpr hk)]
  simp only [List.mem_map]
  constructor
  · rintro ⟨q, hq, rfl⟩
    exact ⟨q, hq, rfl⟩
  · rintro ⟨q, hq, rfl⟩
    exact ⟨q, hq, rfl⟩

theorem addItem_mem_append (m : List (String × ℚ × String)) (item : T)
    (p : String × ℚ × String) (hk : keyFn item ∉ m.map (fun p => p.1)) :
    p ∈ addItem keyFn amountOf currencyOf m item ↔
      p ∈ m ∨ p = (keyFn item, amountOf item, currencyOf item) := by
  simp only [addItem,
    if_neg (fun hc => hk ((addItem_any_iff m (keyFn item)).mp hc))]
  simp

theorem addItem_keys_superset (m : List (String × ℚ × String)) (item : T) :
    (∀ x ∈ m.map (fun p => p.1),
        x ∈ (addItem keyFn amountOf currencyOf m item).map (fun p => p.1)) ∧
    keyFn item ∈ (addItem keyFn amountOf currencyOf m item).map (fun p => p.1) := by
  rw [addItem_keys]
  by_cases hk : keyFn item ∈ m.map (fun p => p.1)
  · rw [if_pos hk]
    exact ⟨fun x hx => hx, hk⟩
  · rw [if_neg hk]
    exact ⟨fun x hx => List.mem_append_left _ hx, List.mem_append_right _ (by simp)⟩

end AggregateLemmas2



section AggregateMain

variable {T : Type} (keyFn : T → String) (amountOf : T → ℚ) (currencyOf : T → String)

theorem foldl_addItem_char (items : List T) (acc : List (String × ℚ × String))
    (hN : (acc.map (fun p => p.1)).Nodup) :
    ((items.foldl (addItem keyFn amountOf currencyOf) acc).map (fun p => p.1)).Nodup ∧
    (∀ k, (k ∈ (items.foldl (addItem keyFn amountOf currencyOf) acc).map (fun p => p.1)) ↔
          ((k ∈ acc.map (fun p => p.1)) ∨ k ∈ items.map keyFn)) ∧
    (∀ p ∈ items.foldl (addItem keyFn amountOf currencyOf) acc,
       (∃ a0, (p.1, a0, p.2.2) ∈ acc ∧ p.2.1 = a0 + keyTotal keyFn amountOf items p.1) ∨
       ((p.1 ∉ acc.map (fun p => p.1)) ∧ p.2.1 = keyTotal keyFn amountOf items p.1 ∧
         firstCurrency keyFn currencyOf items p.1 = some p.2.2)) := by
  induction items generalizing acc with
  | nil =>
    refine ⟨hN, fun k => by simp, ?_⟩
    rintro ⟨k, a, c⟩ hp
    left
    exact ⟨a, hp, (add_zero a).symm⟩
  | cons i rest ih =>
    have hN' := addItem_nodup keyFn amountOf currencyOf acc i hN
    obtain ⟨ih1, ih2, ih3⟩ := ih (addItem keyFn amountOf currencyOf acc i) hN'
    refine ⟨ih1, ?_, ?_⟩
    · intro k
      rw [List.foldl_cons, ih2 k, addItem_keys]
      by_cases hk : keyFn i ∈ acc.map (fun p => p.1)
      · rw [if_pos hk]
        simp only [List.map_cons, List.mem_cons]
        constructor
        · rintro (h | h)
          · exact Or.inl h
          · exact Or.inr (Or.inr h)
        · rintro (h | h | h)
          · exact Or.inl h
          · exact Or.inl (h ▸ hk)
          · exact Or.inr h
      · rw [if_neg hk]
        simp only [List.mem_append, List.mem_singleton, List.map_cons, List.mem_cons]
        tauto
    · rintro ⟨pk, pa, pc⟩ hp
      rw [List.foldl_cons] at hp
      obtain ⟨hsub, hki⟩ := addItem_keys_superset keyFn amountOf currencyOf acc i
      obtain (⟨a0, ha0mem, hsum⟩ | ⟨hnot, hsum, hcur⟩) := ih3 ⟨pk, pa, pc⟩ hp
      · replace ha0mem : (pk, a0, pc) ∈ addItem keyFn amountOf currencyOf acc i := ha0mem
        replace hsum : pa = a0 + keyTotal keyFn amountOf rest pk := hsum
        by_cases hk : keyFn i ∈ acc.map (fun p => p.1)
        · rw [addItem_mem_update keyFn amountOf currencyOf acc i _ hk] at ha0mem
          obtain ⟨⟨qk, qa, qc⟩, hq, heq⟩ := ha0mem
          by_cases hq1 : qk = keyFn i
          · rw [if_pos (show (qk, qa, qc).1 = keyFn i from hq1)] at heq
            simp only [Prod.mk.injEq] at heq
            obtain ⟨h1, h2, h3⟩ := heq
            left
            refine ⟨qa, ?_, ?_⟩
            · show (pk, qa, pc) ∈ acc
              rw [h1, h3]
              exact hq
            · show pa = qa + keyTotal keyFn amountOf (i :: rest) pk
              rw [hsum, h2, keyTotal_cons, if_pos (by rw [h1, hq1])]
              ring
          · rw [if_neg (show ¬ (qk, qa, qc).1 = keyFn i from hq1)] at heq
            simp only [Prod.mk.injEq] at heq
            obtain ⟨h1, h2, h3⟩ := heq
            left
            refine ⟨a0, ?_, ?_⟩
            · show (pk, a0, pc) ∈ acc
              rw [h1, h3, h2]
              exact hq
            · show pa = a0 + keyTotal keyFn amountOf (i :: rest) pk
              rw [hsum, keyTotal_cons, if_neg (fun hc => hq1 (by rw [← h1, ← hc]))]
        · rw [addItem_mem_append keyFn amountOf currencyOf acc i _ hk] at ha0mem
          obtain hmem | heq := ha0mem
          · left
            refine ⟨a0, hmem, ?_⟩
            show pa = a0 + keyTotal keyFn amountOf (i :: rest) pk
            rw [hsum, keyTotal_cons, if_neg ?_]
            intro hcon
            apply hk
            rw [hcon]
            exact List.mem_map.mpr ⟨(pk, a0, pc), hmem, rfl⟩
          · simp only [Prod.mk.injEq] at heq
            obtain ⟨h1, h2, h3⟩ := heq
            right
            refine ⟨h1 ▸ hk, ?_, ?_⟩
            · show pa = keyTotal keyFn amountOf (i :: rest) pk
              rw [hsum, h2, keyTotal_cons, if_pos h1.symm]
            · show firstCurrency keyFn currencyOf (i :: rest) pk = some pc
              rw [firstCurrency_cons, if_pos h1.symm, h3]
      · replace hnot : pk ∉ (addItem keyFn amountOf currencyOf acc i).map (fun p => p.1) := hnot
        replace hsum : pa = keyTotal keyFn amountOf rest pk := hsum
        replace hcur : firstCurrency keyFn currencyOf rest pk = some pc := hcur
        have h1 : pk ∉ acc.map (fun p => p.1) := fun hc => hnot (hsub _ hc)
        have h2 : pk ≠ keyFn i := fun hc => hnot (hc ▸ hki)
        right
        refine ⟨h1, ?_, ?_⟩
        · show pa = keyTotal keyFn amountOf (i :: rest) pk
          rw [hsum, keyTotal_cons, if_neg (fun hc => h2 hc.symm)]
        · show firstCurrency keyFn currencyOf (i :: rest) pk = some pc
          rw [firstCurrency_cons, if_neg (fun hc => h2 hc.symm)]
          exact hcur

end AggregateMain

end Cost

namespace Cost

/-- C7: `aggregate_by_key` groups items by key (each input key appears
exactly once in the output and no other key does), sums the amounts within
each group, takes the currency of the first item observed for the key,
and orders the output by total amount descending (ties in arbitrary
order); the empty input gives the empty output, and the concrete example
`[("u1",10), ("u1",20), ("u2",5)]` gives `[("u1",30), ("u2",5)]` in that
order. -/
theorem c7_aggregate_by_key {T : Type} (items : List T) (keyFn : T → String)
    (amountOf : T → ℚ) (currencyOf : T → String) :
    List.Pairwise (fun a b : String × ℚ × String => b.2.1 ≤ a.2.1)
        (aggregateByKey items keyFn amountOf currencyOf) ∧
    ((aggregateByKey items keyFn amountOf currencyOf).map (fun p => p.1)).Nodup ∧
    (∀ k, (k ∈ (aggregateByKey items keyFn amountOf currencyOf).map (fun p => p.1))
        ↔ k ∈ items.map keyFn) ∧
    (∀ p ∈ aggregateByKey items keyFn amountOf currencyOf,
        p.2.1 = keyTotal keyFn amountOf items p.1 ∧
        firstCurrency keyFn currencyOf items p.1 = some p.2.2) ∧
    aggregateByKey ([] : List T) keyFn amountOf currencyOf = [] ∧
    aggregateByKey [("u1", (10 : ℚ)), ("u1", 20), ("u2", 5)]
        (fun i => i.1) (fun i => i.2) (fun _ => "USD")
      = [("u1", 30, "USD"), ("u2", 5, "USD")] := by
  haveI : IsTotal (String × ℚ × String) (fun a b => b.2.1 ≤ a.2.1) :=
    ⟨fun a b => (le_total b.2.1 a.2.1).imp id id⟩
  haveI : IsTrans (String × ℚ × String) (fun a b => b.2.1 ≤ a.2.1) :=
    ⟨fun _ _ _ hab hbc => le_trans hbc hab⟩
  obtain ⟨hnd, hmem, hval⟩ :=
    foldl_addItem_char keyFn amountOf currencyOf items [] (by simp)
  have hperm := List.perm_insertionSort (fun a b : String × ℚ × String => b.2.1 ≤ a.2.1)
    (items.foldl (addItem keyFn amountOf currencyOf) [])
  refine ⟨?_, ?_, ?_, ?_, rfl,
    by norm_num [aggregateByKey, addItem, List.insertionSort, List.orderedInsert]⟩
  · exact List.sorted_insertionSort _ _
  · exact ((hperm.map (fun p => p.1)).nodup_iff).mpr hnd
  · intro k
    rw [aggregateByKey, (hperm.map (fun p => p.1)).mem_iff, hmem k]
    simp
  · intro p hp
    rw [aggregateByKey, hperm.mem_iff] at hp
    obtain (⟨a0, ha0, -⟩ | ⟨-, h2, h3⟩) := hval p hp
    · exact absurd ha0 (List.not_mem_nil _)
    · exact ⟨h2, h3⟩

end Cost

namespace Cost

/-! ### Claim C6 -/


theorem datesStrictlyAscending_pairwise :
    ∀ {l : List CostRecord}, datesStrictlyAscending l = true →
      List.Pairwise (fun a b : CostRecord => a.date.data < b.date.data) l
  | [], _ => List.Pairwise.nil
  | [a], _ => List.pairwise_singleton _ a
  | a :: b :: rest, h => by
    rw [datesStrictlyAscending, Bool.and_eq_true, decide_eq_true_eq] at h
    obtain ⟨hab, htail⟩ := h
    have ih := datesStrictlyAscending_pairwise htail
    rw [List.pairwise_cons]
    refine ⟨?_, ih⟩
    intro x hx
    rcases List.mem_cons.mp hx with rfl | hx
    · exact hab
    · have hbx := (List.pairwise_cons.mp ih).1 x hx
      exact lt_trans hab hbx

theorem nodup_dates_of_ascending {l : List CostRecord}
    (h : datesStrictlyAscending l = true) : (l.map (fun r => r.date)).Nodup := by
  rw [List.Nodup, List.pairwise_map]
  exact (datesStrictlyAscending_pairwise h).imp
    (fun hlt heq => absurd (heq ▸ hlt) (lt_irrefl _))



theorem upsertCachedCosts_disjoint :
    ∀ (F acc : List CostRecord),
      (∀ r ∈ F, ∀ c ∈ acc, c.date ≠ r.date) →
      (F.map (fun r => r.date)).Nodup →
      upsertCachedCosts acc F = acc ++ F
  | [], acc, _, _ => (List.append_nil acc).symm
  | f :: rest, acc, hdisj, hnd => by
    have hany : (acc.any fun cr => cr.date = f.date) = false := by
      rw [Bool.eq_false_iff]
      intro hc
      rw [List.any_eq_true] at hc
      obtain ⟨c, hcmem, hcd⟩ := hc
      exact hdisj f (List.mem_cons_self f rest) c hcmem (of_decide_eq_true hcd)
    have hstep : upsertOne acc f = acc ++ [f] := by
      rw [upsertOne, hany]
      simp
    rw [upsertCachedCosts, List.foldl_cons, hstep]
    have hnd' : (rest.map (fun r => r.date)).Nodup := (List.nodup_cons.mp hnd).2
    have hfd : f.date ∉ rest.map (fun r => r.date) := (List.nodup_cons.mp hnd).1
    have hdisj' : ∀ r ∈ rest, ∀ c ∈ acc ++ [f], c.date ≠ r.date := by
      intro r hr c hc
      rcases List.mem_append.mp hc with hc | hc
      · exact hdisj r (List.mem_cons_of_mem f hr) c hc
      · rw [List.mem_singleton.mp hc]
        intro heq
        exact hfd (heq ▸ List.mem_map.mpr ⟨r, hr, rfl⟩)
    have := upsertCachedCosts_disjoint rest (acc ++ [f]) hdisj' hnd'
    rw [upsertCachedCosts] at this
    rw [this, List.append_assoc, List.singleton_append]

theorem getCachedCosts_id (F : List CostRecord) (start endDate : String)
    (hrange : ∀ r ∈ F, start.data ≤ r.date.data ∧ r.date.data < endDate.data)
    (hasc : datesStrictlyAscending F = true) :
    getCachedCosts F start endDate = F := by
  rw [getCachedCosts]
  have hfil : (F.filter (fun r =>
      decide (start.data ≤ r.date.data ∧ r.date.data < endDate.data))) = F := by
    rw [List.filter_eq_self]
    intro r hr
    exact decide_eq_true (hrange r hr)
  rw [hfil]
  haveI : IsTotal CostRecord (fun a b => a.date.data ≤ b.date.data) :=
    ⟨fun a b => le_total a.date.data b.date.data⟩
  haveI : IsTrans CostRecord (fun a b => a.date.data ≤ b.date.data) :=
    ⟨fun _ _ _ hab hbc => le_trans hab hbc⟩
  exact List.Sorted.insertionSort_eq
    ((datesStrictlyAscending_pairwise hasc).imp le_of_lt)



/-- C6 (amended): with a deterministic billing API and an empty cache,
calling `query` twice yields identical result sequences, and — once the
first call's background cache write has completed — the second call makes
**no finalized-range billing-API call**: it is served from the cache for
the finalized sub-range and performs no further upsert; the live sub-range
(if non-empty) is still fetched from the billing API on every call.  The
hypotheses require the finalized fetch to return a non-empty,
strictly-date-ascending list whose first date is at or before `start` and
whose dates lie inside the finalized range. -/
theorem c6_idempotent_amended (queryType filterId start endDate : String) (today : Date)
    (ceFn : String → String → List CostRecord)
    (hce : start.data < (cacheEnd (cutoffOf queryType today) endDate).data)
    (hne : ceFn start (cacheEnd (cutoffOf queryType today) endDate) ≠ [])
    (hasc : datesStrictlyAscending
        (ceFn start (cacheEnd (cutoffOf queryType today) endDate)) = true)
    (hrange : ∀ r ∈ ceFn start (cacheEnd (cutoffOf queryType today) endDate),
        start.data ≤ r.date.data ∧
        r.date.data < (cacheEnd (cutoffOf queryType today) endDate).data)
    (hhead : ∀ r ∈ (ceFn start (cacheEnd (cutoffOf queryType today) endDate)).take 1,
        r.date.data ≤ start.data) :
    ((queryWithCache queryType filterId start endDate today
        ((queryWithCache queryType filterId start endDate today [] ceFn).2) ceFn).1.results
      = (queryWithCache queryType filterId start endDate today [] ceFn).1.results) ∧
    ((queryWithCache queryType filterId start endDate today
        ((queryWithCache queryType filterId start endDate today [] ceFn).2) ceFn).1.apiCalls
      = liveCallsOf (cacheEnd (cutoffOf queryType today) endDate) endDate) ∧
    ((queryWithCache queryType filterId start endDate today
        ((queryWithCache queryType filterId start endDate today [] ceFn).2) ceFn).1.upserted
      = none) ∧
    ((queryWithCache queryType filterId start endDate today
        ((queryWithCache queryType filterId start endDate today [] ceFn).2) ceFn).2
      = (queryWithCache queryType filterId start endDate today [] ceFn).2) := by
  have hfin1 : finalizedStep queryType filterId start
      (cacheEnd (cutoffOf queryType today) endDate)
      (fun _ _ a b => Except.ok (getCachedCosts [] a b)) ceFn
      = ⟨ceFn start (cacheEnd (cutoffOf queryType today) endDate),
          [(start, cacheEnd (cutoffOf queryType today) endDate)],
          [(start, cacheEnd (cutoffOf queryType today) endDate)],
          some (ceFn start (cacheEnd (cutoffOf queryType today) endDate))⟩ := by
    rw [finalizedStep, if_pos hce]
    have h0 : getCachedCosts [] start (cacheEnd (cutoffOf queryType today) endDate)
        = [] := rfl
    simp [h0]
  have hcache1 : (queryWithCache queryType filterId start endDate today [] ceFn).2
      = ceFn start (cacheEnd (cutoffOf queryType today) endDate) := by
    simp only [queryWithCache, cachedQuery, hfin1]
    show upsertCachedCosts [] (ceFn start (cacheEnd (cutoffOf queryType today) endDate))
        = ceFn start (cacheEnd (cutoffOf queryType today) endDate)
    rw [upsertCachedCosts_disjoint _ [] (by intro r _ c hc; cases hc)
      (nodup_dates_of_ascending hasc)]
    exact List.nil_append _
  obtain ⟨f, rest, hF⟩ : ∃ f rest,
      ceFn start (cacheEnd (cutoffOf queryType today) endDate) = f :: rest := by
    cases hFc : ceFn start (cacheEnd (cutoffOf queryType today) endDate) with
    | nil => exact absurd hFc hne
    | cons f rest => exact ⟨f, rest, rfl⟩
  have hhd : (ceFn start (cacheEnd (cutoffOf queryType today) endDate)).headD
      ⟨"", 0, ""⟩ = f := by rw [hF]; rfl
  have hfd : f.date.data ≤ start.data := by
    apply hhead
    rw [hF]
    simp
  have hfin2 : finalizedStep queryType filterId start
      (cacheEnd (cutoffOf queryType today) endDate)
      (fun _ _ a b => Except.ok (getCachedCosts
        (ceFn start (cacheEnd (cutoffOf queryType today) endDate)) a b)) ceFn
      = ⟨ceFn start (cacheEnd (cutoffOf queryType today) endDate),
          [(start, cacheEnd (cutoffOf queryType today) endDate)], [], none⟩ := by
    rw [finalizedStep, if_pos hce]
    have hgid := getCachedCosts_id
      (ceFn start (cacheEnd (cutoffOf queryType today) endDate))
      start (cacheEnd (cutoffOf queryType today) endDate) hrange hasc
    simp only [hgid]
    rw [if_pos ⟨hne, hhd ▸ hfd⟩]
  refine ⟨?_, ?_, ?_, ?_⟩
  · rw [hcache1]
    simp only [queryWithCache, cachedQuery, hfin1, hfin2]
  · rw [hcache1]
    simp only [queryWithCache, cachedQuery, hfin2]
    exact List.nil_append _
  · rw [hcache1]
    simp only [queryWithCache, cachedQuery, hfin2]
  · rw [hcache1]
    simp only [queryWithCache, cachedQuery, hfin2, hcache1]

end Cost

namespace Cost

/-- C6 counterexample: in the C3 scenario (range `[2024-01-01, 2024-01-10)`,
`now = 2024-01-08`), the second `query` call — issued after the first
call's background write completed — still makes a billing-API call, for
the live sub-range `["2024-01-08", "2024-01-10")`; so "makes no
billing-API calls" is false whenever the requested range has a live part
(the results are nevertheless identical). -/
theorem c6_second_call_still_calls_api_cex :
    (queryWithCache "daily" "" "2024-01-01" "2024-01-10" ⟨2024, 1, 8⟩
        ((queryWithCache "daily" "" "2024-01-01" "2024-01-10" ⟨2024, 1, 8⟩ []
          unitApi).2) unitApi).1.apiCalls = [("2024-01-08", "2024-01-10")] ∧
    ([("2024-01-08", "2024-01-10")] : List (String × String)) ≠ [] ∧
    (queryWithCache "daily" "" "2024-01-01" "2024-01-10" ⟨2024, 1, 8⟩
        ((queryWithCache "daily" "" "2024-01-01" "2024-01-10" ⟨2024, 1, 8⟩ []
          unitApi).2) unitApi).1.results
      = (queryWithCache "daily" "" "2024-01-01" "2024-01-10" ⟨2024, 1, 8⟩ []
          unitApi).1.results :=
  ⟨by decide, by decide, by decide⟩

/-- C6 witness: the amended idempotence theorem applied to the C3 scenario
(`unitApi`, range `[2024-01-01, 2024-01-10)`, `now = 2024-01-08`), all
hypotheses checked by computation. -/
theorem c6_idempotent_amended_witness :
    ((queryWithCache "daily" "" "2024-01-01" "2024-01-10" ⟨2024, 1, 8⟩
        ((queryWithCache "daily" "" "2024-01-01" "2024-01-10" ⟨2024, 1, 8⟩ []
          unitApi).2) unitApi).1.results
      = (queryWithCache "daily" "" "2024-01-01" "2024-01-10" ⟨2024, 1, 8⟩ []
          unitApi).1.results) ∧
    ((queryWithCache "daily" "" "2024-01-01" "2024-01-10" ⟨2024, 1, 8⟩
        ((queryWithCache "daily" "" "2024-01-01" "2024-01-10" ⟨2024, 1, 8⟩ []
          unitApi).2) unitApi).1.apiCalls
      = liveCallsOf (cacheEnd (cutoffOf "daily" ⟨2024, 1, 8⟩) "2024-01-10")
          "2024-01-10") ∧
    ((queryWithCache "daily" "" "2024-01-01" "2024-01-10" ⟨2024, 1, 8⟩
        ((queryWithCache "daily" "" "2024-01-01" "2024-01-10" ⟨2024, 1, 8⟩ []
          unitApi).2) unitApi).1.upserted = none) ∧
    ((queryWithCache "daily" "" "2024-01-01" "2024-01-10" ⟨2024, 1, 8⟩
        ((queryWithCache "daily" "" "2024-01-01" "2024-01-10" ⟨2024, 1, 8⟩ []
          unitApi).2) unitApi).2
      = (queryWithCache "daily" "" "2024-01-01" "2024-01-10" ⟨2024, 1, 8⟩ []
          unitApi).2) :=
  c6_idempotent_amended "daily" "" "2024-01-01" "2024-01-10" ⟨2024, 1, 8⟩ unitApi
    (by decide) (by decide) (by decide) (by decide) (by decide)

end Cost

namespace Cost

/-! ### Claim C10 -/

theorem digitChar_lt_iff {a b : Nat} (ha : a ≤ 9) (hb : b ≤ 9) :
    digitChar a < digitChar b ↔ a < b := by
  interval_cases a <;> interval_cases b <;> decide

theorem digitChar_eq_iff {a b : Nat} (ha : a ≤ 9) (hb : b ≤ 9) :
    digitChar a = digitChar b ↔ a = b := by
  interval_cases a <;> interval_cases b <;> decide

theorem not_nil_lt_nil : ¬ (([] : List Char) < []) := by
  intro h
  cases h

theorem lex_cons_iff {c d : Char} {l1 l2 : List Char} :
    (c :: l1 < d :: l2) ↔ (c < d ∨ (c = d ∧ l1 < l2)) := by
  constructor
  · intro h
    cases h with
    | cons h => exact Or.inr ⟨rfl, h⟩
    | rel h => exact Or.inl h
  · rintro (h | ⟨rfl, h⟩)
    · exact List.Lex.rel h
    · exact List.Lex.cons h

theorem lex_append_iff :
    ∀ (l1 l2 r1 r2 : List Char), l1.length = l2.length →
      (l1 ++ r1 < l2 ++ r2 ↔ (l1 < l2 ∨ (l1 = l2 ∧ r1 < r2)))
  | [], [], r1, r2, _ => by
    constructor
    · intro h
      exact Or.inr ⟨rfl, h⟩
    · rintro (h | ⟨-, h⟩)
      · exact absurd h not_nil_lt_nil
      · exact h
  | [], d :: l2, _, _, h => by cases h
  | c :: l1, [], _, _, h => by cases h
  | c :: l1, d :: l2, r1, r2, hl => by
    have hlen : l1.length = l2.length := by simpa using hl
    simp only [List.cons_append]
    constructor
    · intro hlt
      rcases lex_cons_iff.mp hlt with h | ⟨rfl, h⟩
      · exact Or.inl (lex_cons_iff.mpr (Or.inl h))
      · rcases (lex_append_iff l1 l2 r1 r2 hlen).mp h with h2 | ⟨rfl, h2⟩
        · exact Or.inl (lex_cons_iff.mpr (Or.inr ⟨rfl, h2⟩))
        · exact Or.inr ⟨rfl, h2⟩
    · rintro (hlt | ⟨heq, h2⟩)
      · rcases lex_cons_iff.mp hlt with h | ⟨rfl, h⟩
        · exact lex_cons_iff.mpr (Or.inl h)
        · exact lex_cons_iff.mpr
            (Or.inr ⟨rfl, (lex_append_iff l1 l2 r1 r2 hlen).mpr (Or.inl h)⟩)
      · obtain ⟨rfl, rfl⟩ := List.cons_eq_cons.mp heq
        exact lex_cons_iff.mpr
          (Or.inr ⟨rfl, (lex_append_iff l1 l1 r1 r2 rfl).mpr (Or.inr ⟨rfl, h2⟩)⟩)

theorem cons_same_lt_iff {c : Char} {l1 l2 : List Char} :
    (c :: l1 < c :: l2) ↔ l1 < l2 := by
  rw [lex_cons_iff]
  constructor
  · rintro (h | ⟨-, h⟩)
    · exact absurd h (lt_irrefl c)
    · exact h
  · intro h
    exact Or.inr ⟨rfl, h⟩

theorem padNat_length : ∀ (k n : Nat), (padNat k n).length = k
  | 0, _ => rfl
  | k + 1, n => by
    rw [padNat, List.length_cons, padNat_length k]

theorem base_lt_iff (p a b c d : Nat) (hb : b < p) (hd : d < p) :
    p * a + b < p * c + d ↔ (a < c ∨ (a = c ∧ b < d)) := by
  constructor
  · intro h
    rcases lt_trichotomy a c with h1 | h1 | h1
    · exact Or.inl h1
    · subst h1
      exact Or.inr ⟨rfl, lt_of_add_lt_add_left h⟩
    · exfalso
      have hcd : p * c + d < p * a + b :=
        calc p * c + d < p * c + p := Nat.add_lt_add_left hd _
          _ = p * (c + 1) := by ring
          _ ≤ p * a := Nat.mul_le_mul_left p h1
          _ ≤ p * a + b := Nat.le_add_right _ _
      exact absurd (lt_trans h hcd) (lt_irrefl _)
  · rintro (h1 | ⟨rfl, h2⟩)
    · calc p * a + b < p * a + p := Nat.add_lt_add_left hb _
        _ = p * (a + 1) := by ring
        _ ≤ p * c := Nat.mul_le_mul_left p h1
        _ ≤ p * c + d := Nat.le_add_right _ _
    · exact Nat.add_lt_add_left h2 _

theorem pad_lt_iff : ∀ (k m n : Nat), m < 10 ^ k → n < 10 ^ k →
    (padNat k m < padNat k n ↔ m < n)
  | 0, m, n, hm, hn => by
    have hm0 : m = 0 := Nat.lt_one_iff.mp hm
    have hn0 : n = 0 := Nat.lt_one_iff.mp hn
    subst hm0; subst hn0
    simp only [padNat]
    exact ⟨fun h => absurd h not_nil_lt_nil, fun h => absurd h (lt_irrefl 0)⟩
  | k + 1, m, n, hm, hn => by
    have h10 : (0 : Nat) < 10 ^ k := pow_pos (by norm_num) k
    have hmd : m / 10 ^ k ≤ 9 := by
      have h1 : m < 10 * 10 ^ k := by
        rw [mul_comm, ← pow_succ]
        exact hm
      have h2 : m / 10 ^ k < 10 := (Nat.div_lt_iff_lt_mul h10).mpr h1
      omega
    have hnd : n / 10 ^ k ≤ 9 := by
      have h1 : n < 10 * 10 ^ k := by
        rw [mul_comm, ← pow_succ]
        exact hn
      have h2 : n / 10 ^ k < 10 := (Nat.div_lt_iff_lt_mul h10).mpr h1
      omega
    rw [padNat, padNat, lex_cons_iff, digitChar_lt_iff hmd hnd, digitChar_eq_iff hmd hnd,
      pad_lt_iff k (m % 10 ^ k) (n % 10 ^ k) (Nat.mod_lt _ h10) (Nat.mod_lt _ h10)]
    have hmm := Nat.div_add_mod m (10 ^ k)
    have hnn := Nat.div_add_mod n (10 ^ k)
    constructor
    · intro h
      rw [← hmm, ← hnn]
      exact (base_lt_iff (10 ^ k) (m / 10 ^ k) (m % 10 ^ k) (n / 10 ^ k) (n % 10 ^ k)
        (Nat.mod_lt _ h10) (Nat.mod_lt _ h10)).mpr h
    · intro h
      apply (base_lt_iff (10 ^ k) (m / 10 ^ k) (m % 10 ^ k) (n / 10 ^ k) (n % 10 ^ k)
        (Nat.mod_lt _ h10) (Nat.mod_lt _ h10)).mp
      rw [hmm, hnn]
      exact h

theorem pad_eq_iff {k m n : Nat} (hm : m < 10 ^ k) (hn : n < 10 ^ k) :
    padNat k m = padNat k n ↔ m = n := by
  constructor
  · intro h
    by_contra hne
    rcases Nat.lt_or_ge m n with h1 | h1
    · have := (pad_lt_iff k m n hm hn).mpr h1
      rw [h] at this
      exact absurd this (lt_irrefl _)
    · have h2 : n < m := lt_of_le_of_ne h1 (fun he => hne he.symm)
      have := (pad_lt_iff k n m hn hm).mpr h2
      rw [h] at this
      exact absurd this (lt_irrefl _)
  · intro h
    rw [h]



theorem isoDate_lt_iff {y1 m1 d1 y2 m2 d2 : Nat}
    (hy1 : y1 < 10 ^ 4) (hm1 : m1 < 10 ^ 2) (hd1 : d1 < 10 ^ 2)
    (hy2 : y2 < 10 ^ 4) (hm2 : m2 < 10 ^ 2) (hd2 : d2 < 10 ^ 2) :
    (isoDate y1 m1 d1).data < (isoDate y2 m2 d2).data ↔
      (y1 < y2 ∨ (y1 = y2 ∧ (m1 < m2 ∨ (m1 = m2 ∧ d1 < d2)))) := by
  show padNat 4 y1 ++ '-' :: (padNat 2 m1 ++ '-' :: padNat 2 d1)
      < padNat 4 y2 ++ '-' :: (padNat 2 m2 ++ '-' :: padNat 2 d2) ↔ _
  rw [lex_append_iff _ _ _ _ (by rw [padNat_length, padNat_length])]
  rw [cons_same_lt_iff]
  rw [lex_append_iff _ _ _ _ (by rw [padNat_length, padNat_length])]
  rw [cons_same_lt_iff]
  rw [pad_lt_iff 4 y1 y2 hy1 hy2, pad_lt_iff 2 m1 m2 hm1 hm2,
    pad_lt_iff 2 d1 d2 hd1 hd2]
  rw [pad_eq_iff hy1 hy2, pad_eq_iff hm1 hm2]



theorem isoDate_le_iff {y1 m1 d1 y2 m2 d2 : Nat}
    (hy1 : y1 < 10 ^ 4) (hm1 : m1 < 10 ^ 2) (hd1 : d1 < 10 ^ 2)
    (hy2 : y2 < 10 ^ 4) (hm2 : m2 < 10 ^ 2) (hd2 : d2 < 10 ^ 2) :
    (isoDate y1 m1 d1).data ≤ (isoDate y2 m2 d2).data ↔
      (y1 < y2 ∨ (y1 = y2 ∧ (m1 < m2 ∨ (m1 = m2 ∧ d1 ≤ d2)))) := by
  rw [← not_lt, isoDate_lt_iff hy2 hm2 hd2 hy1 hm1 hd1]
  omega

/-- C10: all date comparisons in `cached_query` are string comparisons;
on zero-padded `"YYYY-MM-DD"` strings the lexicographic string order (and
its non-strict companion, the order used by the coverage check) coincides
with chronological order — lexicographic on `(year, month, day)` — and in
particular `cache_end = min(cutoff, end)` picks the chronologically
earlier date.  This holds only under the zero-padded-format precondition
(the boundedness hypotheses below). -/
theorem c10_lex_chronological (y1 m1 d1 y2 m2 d2 : Nat)
    (hy1 : y1 < 10000) (hm1 : m1 < 100) (hd1 : d1 < 100)
    (hy2 : y2 < 10000) (hm2 : m2 < 100) (hd2 : d2 < 100) :
    ((isoDate y1 m1 d1).data < (isoDate y2 m2 d2).data ↔
      (y1 < y2 ∨ (y1 = y2 ∧ (m1 < m2 ∨ (m1 = m2 ∧ d1 < d2))))) ∧
    ((isoDate y1 m1 d1).data ≤ (isoDate y2 m2 d2).data ↔
      (y1 < y2 ∨ (y1 = y2 ∧ (m1 < m2 ∨ (m1 = m2 ∧ d1 ≤ d2))))) ∧
    (cacheEnd (isoDate y1 m1 d1) (isoDate y2 m2 d2)
      = if y1 < y2 ∨ (y1 = y2 ∧ (m1 < m2 ∨ (m1 = m2 ∧ d1 < d2)))
        then isoDate y1 m1 d1 else isoDate y2 m2 d2) := by
  have hy1' : y1 < 10 ^ 4 := by norm_num; exact hy1
  have hm1' : m1 < 10 ^ 2 := by norm_num; exact hm1
  have hd1' : d1 < 10 ^ 2 := by norm_num; exact hd1
  have hy2' : y2 < 10 ^ 4 := by norm_num; exact hy2
  have hm2' : m2 < 10 ^ 2 := by norm_num; exact hm2
  have hd2' : d2 < 10 ^ 2 := by norm_num; exact hd2
  refine ⟨isoDate_lt_iff hy1' hm1' hd1' hy2' hm2' hd2',
    isoDate_le_iff hy1' hm1' hd1' hy2' hm2' hd2', ?_⟩
  rw [cacheEnd]
  exact if_congr (isoDate_lt_iff hy1' hm1' hd1' hy2' hm2' hd2') rfl rfl

end Cost

namespace Cost

/-- C10 witness: the chronological-order theorem applied at
`2024-01-07` versus `2024-01-08`. -/
theorem c10_lex_chronological_witness :
    (2024 < 10000) ∧ (1 < 100) ∧ (7 < 100) ∧ (8 < 100) ∧
    (((isoDate 2024 1 7).data < (isoDate 2024 1 8).data ↔
      (2024 < 2024 ∨ (2024 = 2024 ∧ (1 < 1 ∨ (1 = 1 ∧ 7 < 8))))) ∧
    ((isoDate 2024 1 7).data ≤ (isoDate 2024 1 8).data ↔
      (2024 < 2024 ∨ (2024 = 2024 ∧ (1 < 1 ∨ (1 = 1 ∧ 7 ≤ 8))))) ∧
    (cacheEnd (isoDate 2024 1 7) (isoDate 2024 1 8)
      = if 2024 < 2024 ∨ (2024 = 2024 ∧ (1 < 1 ∨ (1 = 1 ∧ 7 < 8)))
        then isoDate 2024 1 7 else isoDate 2024 1 8)) :=
  ⟨by decide, by decide, by decide, by decide,
    c10_lex_chronological 2024 1 7 2024 1 8
      (by decide) (by decide) (by decide) (by decide) (by decide) (by decide)⟩

end Cost
